import Mathlib

/- Verification of the whiteboard/canvas engine in
   src/src/components/traders/Whiteboard.tsx.

   Modelling conventions:
   * JavaScript floating-point numbers are modelled as exact rationals.
   * `JSON.parse(JSON.stringify(x))` (deep cloning) is the identity on values.
   * JS arrays used as stacks push/pop at the END of a Lean list;
     `Array.prototype.shift` drops the head, `slice(0, n)` is `take n`.
   * Optional object fields (`endX?`, `points?`, ...) are `Option` values;
     a missing field is `none`.
   * `Math.sqrt d <= t` comparisons are expressed in the equivalent
     radical-free form `0 <= t AND d <= t * t` (`sqrtLe`), and
     `|Math.sqrt d - r| <= t` as `sqrtAbsSubLe`; bridging lemmas against
     `Real.sqrt` justify the translation. -/

namespace Whiteboard

/-- A point, world- or screen-space (Whiteboard.tsx lines 17-20). -/
structure Point where
  x : ℚ
  y : ℚ
  deriving DecidableEq

/-- The element type tag (Whiteboard.tsx line 22). -/
inductive ElementType where
  | pencil
  | eraser
  | line
  | arrow
  | rectangle
  | circle
  | text
  deriving DecidableEq

/-- A drawable element (Whiteboard.tsx lines 24-37). -/
structure CanvasElement where
  id : String
  type : ElementType
  x : ℚ
  y : ℚ
  endX : Option ℚ
  endY : Option ℚ
  points : Option (List Point)
  text : Option String
  color : String
  size : ℚ
  fontFamily : Option String
  fontSize : Option ℚ
  deriving DecidableEq

/-- The view transform (Whiteboard.tsx lines 6-9). -/
structure Transform where
  scale : ℚ
  offset : Point
  deriving DecidableEq

/-- screenToWorld (Whiteboard.tsx lines 40-45). -/
def screenToWorld (screenX screenY scale : ℚ) (offset : Point) : Point :=
  { x := (screenX - offset.x) / scale
    y := (screenY - offset.y) / scale }

/-- worldToScreen (Whiteboard.tsx lines 47-52). -/
def worldToScreen (worldX worldY scale : ℚ) (offset : Point) : Point :=
  { x := worldX * scale + offset.x
    y := worldY * scale + offset.y }

/-- An axis-aligned bounding box as returned by getElementBounds. -/
structure Bounds where
  minX : ℚ
  minY : ℚ
  maxX : ℚ
  maxY : ℚ
  deriving DecidableEq

/-- JavaScript numeric `v || d`: `0` (and a missing value) falls back to `d`. -/
def jsOr (v : Option ℚ) (d : ℚ) : ℚ :=
  match v with
  | some x => if x = 0 then d else x
  | none => d

/-- Fallback chain of getElementBounds: the two-corner branch, the text
heuristic branch, and the degenerate point box (Whiteboard.tsx lines 70-89). -/
def getElementBoundsFallback (element : CanvasElement) : Bounds :=
  match element.endX, element.endY with
  | some ex, some ey =>
    { minX := min element.x ex
      minY := min element.y ey
      maxX := max element.x ex
      maxY := max element.y ey }
  | _, _ =>
    match element.type, element.text with
    | ElementType.text, some t =>
      if t = "" then
        { minX := element.x, minY := element.y, maxX := element.x, maxY := element.y }
      else
        let textHeight := jsOr element.fontSize 16
        let textWidth := ((t.length : ℚ) * jsOr element.fontSize 16) * (6 / 10)
        { minX := element.x
          minY := element.y - textHeight
          maxX := element.x + textWidth
          maxY := element.y }
    | _, _ =>
      { minX := element.x, minY := element.y, maxX := element.x, maxY := element.y }

/-- getElementBounds (Whiteboard.tsx lines 55-90): path elements fold min/max
over all stroke points starting from the first point; other shapes use the two
corners; text uses the character-count heuristic. -/
def getElementBounds (element : CanvasElement) : Bounds :=
  match element.points with
  | some (p0 :: rest) =>
    if element.type = ElementType.pencil ∨ element.type = ElementType.eraser then
      { minX := (p0 :: rest).foldl (fun acc p => min acc p.x) p0.x
        minY := (p0 :: rest).foldl (fun acc p => min acc p.y) p0.y
        maxX := (p0 :: rest).foldl (fun acc p => max acc p.x) p0.x
        maxY := (p0 :: rest).foldl (fun acc p => max acc p.y) p0.y }
    else getElementBoundsFallback element
  | _ => getElementBoundsFallback element

/-- Squared distance from a point to a line segment, following
pointToLineDistance (Whiteboard.tsx lines 93-123).  The source computes the
projection-clamped foot (xx, yy) by exact arithmetic and returns
`Math.sqrt (dx*dx + dy*dy)`; every caller compares that square root against a
threshold, which this development expresses radical-free via `sqrtLe`. -/
def pointToLineDistanceSq (px py x1 y1 x2 y2 : ℚ) : ℚ :=
  let a := px - x1
  let b := py - y1
  let c := x2 - x1
  let d := y2 - y1
  let dot := a * c + b * d
  let lenSq := c * c + d * d
  let param := if lenSq ≠ 0 then dot / lenSq else -1
  let xx := if param < 0 then x1 else if param > 1 then x2 else x1 + param * c
  let yy := if param < 0 then y1 else if param > 1 then y2 else y1 + param * d
  let dx := px - xx
  let dy := py - yy
  dx * dx + dy * dy

/-- Truth value of `Math.sqrt dsq <= t` for nonnegative `dsq`, without
radicals. -/
def sqrtLe (dsq t : ℚ) : Bool :=
  decide (0 ≤ t) && decide (dsq ≤ t * t)

/-- Truth value of `|Math.sqrt dsq - r| <= t` for nonnegative `dsq`, without
radicals. -/
def sqrtAbsSubLe (dsq r t : ℚ) : Bool :=
  (decide (0 ≤ r + t) && decide (dsq ≤ (r + t) * (r + t))) &&
    (decide (r - t ≤ 0) || decide ((r - t) * (r - t) ≤ dsq))

/-- The radical-free form agrees with the real square root. -/
theorem sqrtLe_correct (dsq t : ℚ) (h : 0 ≤ dsq) :
    sqrtLe dsq t = true ↔ Real.sqrt (dsq : ℝ) ≤ (t : ℝ) := by
  unfold sqrtLe
  simp only [Bool.and_eq_true, decide_eq_true_eq]
  constructor
  · rintro ⟨ht, hle⟩
    have : Real.sqrt (dsq : ℝ) ≤ Real.sqrt ((t : ℝ) * t) := by
      apply Real.sqrt_le_sqrt
      exact_mod_cast hle
    calc Real.sqrt (dsq : ℝ) ≤ Real.sqrt ((t : ℝ) * t) := this
      _ = |(t : ℝ)| := by rw [Real.sqrt_mul_self_eq_abs]
      _ = (t : ℝ) := abs_of_nonneg (by exact_mod_cast ht)
  · intro hle
    have ht : (0 : ℝ) ≤ (t : ℝ) := le_trans (Real.sqrt_nonneg _) hle
    constructor
    · exact_mod_cast ht
    · have := Real.sq_sqrt (show (0:ℝ) ≤ (dsq : ℝ) by exact_mod_cast h)
      have hsq : (dsq : ℝ) ≤ (t : ℝ) * (t : ℝ) := by
        calc (dsq : ℝ) = Real.sqrt (dsq : ℝ) ^ 2 := (this).symm
          _ ≤ (t : ℝ) ^ 2 := by
              apply pow_le_pow_left₀ (Real.sqrt_nonneg _) hle
          _ = (t : ℝ) * (t : ℝ) := sq (t : ℝ) ▸ by ring
      exact_mod_cast hsq

/-- The coarse bounding-box-plus-threshold rejection test that opens each loop
iteration of getElementAtPosition (Whiteboard.tsx lines 135-141); `true` means
the element is NOT rejected. -/
def passesBoundingBox (worldX worldY hitThreshold : ℚ) (element : CanvasElement) : Bool :=
  let bounds := getElementBounds element
  !(decide (worldX < bounds.minX - hitThreshold) ||
    decide (worldX > bounds.maxX + hitThreshold) ||
    decide (worldY < bounds.minY - hitThreshold) ||
    decide (worldY > bounds.maxY + hitThreshold))

/-- The per-type detailed hit test of getElementAtPosition
(Whiteboard.tsx lines 143-185). -/
def detailedHit (worldX worldY hitThreshold : ℚ) (element : CanvasElement) : Bool :=
  match element.type with
  | ElementType.pencil | ElementType.eraser =>
    match element.points with
    | some ps =>
      ps.any fun p =>
        sqrtLe ((worldX - p.x) * (worldX - p.x) + (worldY - p.y) * (worldY - p.y))
          hitThreshold
    | none => false
  | ElementType.line | ElementType.arrow =>
    match element.endX, element.endY with
    | some ex, some ey =>
      sqrtLe (pointToLineDistanceSq worldX worldY element.x element.y ex ey) hitThreshold
    | _, _ => false
  | ElementType.rectangle =>
    match element.endX, element.endY with
    | some _, some _ =>
      let bounds := getElementBounds element
      decide (bounds.minX ≤ worldX) && decide (worldX ≤ bounds.maxX) &&
        decide (bounds.minY ≤ worldY) && decide (worldY ≤ bounds.maxY)
    | _, _ => false
  | ElementType.circle =>
    match element.endX, element.endY with
    | some ex, some ey =>
      let centerX := (element.x + ex) / 2
      let centerY := (element.y + ey) / 2
      let radiusX := |ex - element.x| / 2
      let radiusY := |ey - element.y| / 2
      let radius := max radiusX radiusY
      sqrtAbsSubLe
        ((worldX - centerX) * (worldX - centerX) + (worldY - centerY) * (worldY - centerY))
        radius hitThreshold
    | _, _ => false
  | ElementType.text =>
    match element.text with
    | some t =>
      if t = "" then false
      else
        let bounds := getElementBounds element
        decide (bounds.minX ≤ worldX) && decide (worldX ≤ bounds.maxX) &&
          decide (bounds.minY ≤ worldY) && decide (worldY ≤ bounds.maxY)
    | none => false

/-- An element is returned by the loop body of getElementAtPosition exactly
when it survives the bounding-box rejection AND its per-type test fires. -/
def elementHitTest (worldX worldY hitThreshold : ℚ) (element : CanvasElement) : Bool :=
  passesBoundingBox worldX worldY hitThreshold element &&
    detailedHit worldX worldY hitThreshold element

/-- getElementAtPosition (Whiteboard.tsx lines 126-189): the source iterates
`i` from `elements.length - 1` down to `0` and returns the first element that
passes; that downward loop with early return is `find?` on the reversed
list. -/
def getElementAtPosition (worldX worldY : ℚ) (elements : List CanvasElement)
    (hitThreshold : ℚ) : Option CanvasElement :=
  elements.reverse.find? (elementHitTest worldX worldY hitThreshold)

/-- A document is the ordered element sequence (z-order = list order). -/
abbrev Document := List CanvasElement

/-- The history-relevant engine state: `elementsRef`, `historyRef`,
`historyIndexRef`, `redoStackRef` (Whiteboard.tsx lines 195-206), plus a
counter of `debouncedSave` invocations (persistence writes scheduled). -/
structure WBState where
  elements : Document
  history : List Document
  historyIndex : ℕ
  redoStack : List Document
  saveCount : ℕ
  deriving DecidableEq

/-- MAX_HISTORY_STEPS (Whiteboard.tsx line 202). -/
def MAX_HISTORY_STEPS : ℕ := 50

/-- The mount-time history initialization (Whiteboard.tsx lines 209-215):
`historyRef = [clone(elements)]`, `historyIndexRef = 1`. -/
def initState (d : Document) : WBState :=
  { elements := d
    history := [d]
    historyIndex := 1
    redoStack := []
    saveCount := 0 }

/-- saveToHistory (Whiteboard.tsx lines 498-521): clone the current document,
truncate any forward history, push, cap at 50 entries evicting the oldest,
clear the redo stack. -/
def saveToHistory (s : WBState) : WBState :=
  let snapshot := s.elements
  let hist1 :=
    if s.historyIndex < s.history.length then s.history.take s.historyIndex
    else s.history
  let hist2 := hist1 ++ [snapshot]
  if hist2.length > MAX_HISTORY_STEPS then
    { s with history := hist2.drop 1, historyIndex := hist2.length - 1, redoStack := [] }
  else
    { s with history := hist2, historyIndex := hist2.length, redoStack := [] }

/-- handleUndo (Whiteboard.tsx lines 523-541).  Note the source pushes the
current document onto the redo stack and decrements the index BEFORE checking
whether a previous snapshot exists; only the document restore (with its
redraw and persistence write) is guarded by that check. -/
def handleUndo (s : WBState) : WBState :=
  if s.historyIndex > 0 then
    let redo1 := s.redoStack ++ [s.elements]
    let idx1 := s.historyIndex - 1
    let previousSnapshot : Option Document :=
      if idx1 = 0 then none else s.history.get? (idx1 - 1)
    match previousSnapshot with
    | some prev =>
      { s with
          elements := prev
          historyIndex := idx1
          redoStack := redo1
          saveCount := s.saveCount + 1 }
    | none => { s with historyIndex := idx1, redoStack := redo1 }
  else s

/-- handleRedo (Whiteboard.tsx lines 543-561): pop the redo stack, push the
popped snapshot onto the history, restore it, persist. -/
def handleRedo (s : WBState) : WBState :=
  match s.redoStack.getLast? with
  | some nextSnapshot =>
    let hist1 := s.history ++ [nextSnapshot]
    { s with
        elements := nextSnapshot
        history := hist1
        historyIndex := hist1.length
        redoStack := s.redoStack.dropLast
        saveCount := s.saveCount + 1 }
  | none => s

/-- handleDelete (Whiteboard.tsx lines 696-705): with a selection, snapshot
first, then remove the selected element and persist; without one, no-op. -/
def handleDelete (s : WBState) (selectedElementId : Option String) : WBState :=
  match selectedElementId with
  | some selId =>
    let s1 := saveToHistory s
    { s1 with
        elements := s1.elements.filter fun el => el.id != selId
        saveCount := s1.saveCount + 1 }
  | none => s

/-- clearCanvas (Whiteboard.tsx lines 980-984): empties the document and
resets the undo counter display.  It calls neither saveToHistory nor
debouncedSave, and does not touch the redo stack. -/
def clearCanvas (s : WBState) : WBState :=
  { s with elements := [] }

/-- The path-element creation on pointer-down with the pen or eraser tool
(Whiteboard.tsx lines 841-850). -/
def startPathElement (newId : String) (isEraser : Bool) (worldPos : Point)
    (color : String) (size : ℚ) : CanvasElement :=
  { id := newId
    type := if isEraser then ElementType.eraser else ElementType.pencil
    x := worldPos.x
    y := worldPos.y
    endX := none
    endY := none
    points := some [worldPos]
    text := none
    color := if isEraser then "#FFFFFF" else color
    size := size
    fontFamily := none
    fontSize := none }

/-- The shape-element creation on pointer-down with the line/arrow/rectangle/
circle tool (Whiteboard.tsx lines 851-862): start = end = click point. -/
def startShapeElement (newId : String) (ty : ElementType) (worldPos : Point)
    (color : String) (size : ℚ) : CanvasElement :=
  { id := newId
    type := ty
    x := worldPos.x
    y := worldPos.y
    endX := some worldPos.x
    endY := some worldPos.y
    points := none
    text := none
    color := color
    size := size
    fontFamily := none
    fontSize := none }

/-- The shape-endpoint update in the drawing branch of handleMove
(Whiteboard.tsx lines 919-922). -/
def updateShapeEnd (cur : CanvasElement) (worldPos : Point) : CanvasElement :=
  match cur.endX, cur.endY with
  | some _, some _ => { cur with endX := some worldPos.x, endY := some worldPos.y }
  | _, _ => cur

/-- The drawing branch of handleMove (Whiteboard.tsx lines 914-924): the
source appends the world point ONLY when `type === 'pencil'`; any other
in-progress element (including an eraser path, whose endX/endY are undefined)
is left untouched. -/
def handleMoveDrawing (cur : CanvasElement) (worldPos : Point) : CanvasElement :=
  match cur.points with
  | some ps =>
    if cur.type = ElementType.pencil then { cur with points := some (ps ++ [worldPos]) }
    else updateShapeEnd cur worldPos
  | none => updateShapeEnd cur worldPos

/-- The first validity branch of handleEnd (Whiteboard.tsx line 947): a
pencil/eraser element whose path has more than one point. -/
def isPathWithTwoPoints (cur : CanvasElement) : Bool :=
  (decide (cur.type = ElementType.pencil) || decide (cur.type = ElementType.eraser)) &&
    (match cur.points with
     | some ps => decide (1 < ps.length)
     | none => false)

/-- The commit validation of handleEnd (Whiteboard.tsx lines 945-954). -/
def isValidElement (cur : CanvasElement) : Bool :=
  if isPathWithTwoPoints cur then true
  else
    match cur.endX, cur.endY with
    | some ex, some ey =>
      decide (1 < |ex - cur.x|) || decide (1 < |ey - cur.y|)
    | _, _ => false

/-- The drawing-commit branch of handleEnd (Whiteboard.tsx lines 942-961):
if the in-progress element is valid, snapshot history BEFORE appending it and
schedule a persistence write; otherwise discard it without touching state. -/
def handleEndDrawing (s : WBState) (cur : CanvasElement) : WBState :=
  if isValidElement cur then
    let s1 := saveToHistory s
    { s1 with elements := s1.elements ++ [cur], saveCount := s1.saveCount + 1 }
  else s

/-- The drag-commit branch of handleEnd (Whiteboard.tsx lines 933-940): the
element was already mutated in place during handleMove, so this snapshots the
POST-drag document, then persists. -/
def handleEndDrag (s : WBState) : WBState :=
  let s1 := saveToHistory s
  { s1 with saveCount := s1.saveCount + 1 }

/-- JavaScript whitespace as relevant to `String.prototype.trim` on the ASCII
inputs this component handles. -/
def isJsWhitespace (c : Char) : Bool :=
  c = ' ' || c = '\t' || c = '\n' || c = '\r'

/-- Executable model of `String.prototype.trim`: strip leading and trailing
whitespace. -/
def jsTrim (s : String) : String :=
  String.mk (((s.data.dropWhile isJsWhitespace).reverse.dropWhile isJsWhitespace).reverse)

/-- The world anchor of the in-place text input (Whiteboard.tsx line 222). -/
structure TextInputState where
  worldX : ℚ
  worldY : ℚ
  deriving DecidableEq

/-- handleTextCommit (Whiteboard.tsx lines 986-1015): no input state or a
whitespace-only entry aborts without touching document, history, or
persistence; otherwise the trimmed text becomes a new element, with a history
snapshot taken before the append and a persistence write scheduled. -/
def handleTextCommit (s : WBState) (textInput : Option TextInputState)
    (txt newId color : String) (size : ℚ) : WBState :=
  match textInput with
  | none => s
  | some tis =>
    if jsTrim txt = "" then s
    else
      let newElement : CanvasElement :=
        { id := newId
          type := ElementType.text
          x := tis.worldX
          y := tis.worldY
          endX := none
          endY := none
          points := none
          text := some (jsTrim txt)
          color := color
          size := size
          fontFamily := some "Arial"
          fontSize := some 16 }
      let s1 := saveToHistory s
      { s1 with elements := s1.elements ++ [newElement], saveCount := s1.saveCount + 1 }

/-- The zoom branch of handleWheel (Whiteboard.tsx lines 645-674):
`delta = -deltaY * 0.001`, scale clamped to `[0.1, 10]`, and the new offset
chosen so the pre-zoom world point under the cursor maps back to the same
canvas position. -/
def handleWheelZoom (t : Transform) (canvasX canvasY deltaY : ℚ) : Transform :=
  let zoomSensitivity : ℚ := 1 / 1000
  let delta := -deltaY * zoomSensitivity
  let newScale := min (max (1 / 10) (t.scale + delta)) 10
  let worldX := (canvasX - t.offset.x) / t.scale
  let worldY := (canvasY - t.offset.y) / t.scale
  { scale := newScale
    offset := { x := canvasX - worldX * newScale, y := canvasY - worldY * newScale } }

/-- A committed document mutation, as the history manager sees it.  Stroke,
shape and text commits and deletes snapshot BEFORE mutating (`pre`); a drag
commit mutates during handleMove and snapshots at pointer-up (`post`). -/
inductive Mutation where
  | pre (f : Document → Document)
  | post (f : Document → Document)

/-- One committed mutation: the saveToHistory/mutate/debouncedSave sequence
of the corresponding commit path in the source. -/
def applyMutation (s : WBState) (m : Mutation) : WBState :=
  match m with
  | Mutation.pre f =>
    let s1 := saveToHistory s
    { s1 with elements := f s1.elements, saveCount := s1.saveCount + 1 }
  | Mutation.post f =>
    let s1 := { s with elements := f s.elements }
    let s2 := saveToHistory s1
    { s2 with saveCount := s2.saveCount + 1 }

/-- A sequence of committed mutations, oldest first. -/
def applyMutations (s : WBState) : List Mutation → WBState
  | [] => s
  | m :: ms => applyMutations (applyMutation s m) ms

/-- n successive handleUndo invocations. -/
def undoN (s : WBState) : ℕ → WBState
  | 0 => s
  | n + 1 => undoN (handleUndo s) n

/-- n successive handleRedo invocations. -/
def redoN (s : WBState) : ℕ → WBState
  | 0 => s
  | n + 1 => redoN (handleRedo s) n

/-- A small committed pencil stroke, used as a concrete document element. -/
def sampleStroke : CanvasElement :=
  { id := "s1"
    type := ElementType.pencil
    x := 0
    y := 0
    endX := none
    endY := none
    points := some [⟨0, 0⟩, ⟨10, 10⟩]
    text := none
    color := "#000000"
    size := 3
    fontFamily := none
    fontSize := none }

/-- A degenerate one-point pencil stroke (a click without a drag). -/
def degenerateStroke : CanvasElement :=
  { id := "s2"
    type := ElementType.pencil
    x := 0
    y := 0
    endX := none
    endY := none
    points := some [⟨0, 0⟩]
    text := none
    color := "#000000"
    size := 3
    fontFamily := none
    fontSize := none }

/-- A rectangle spanning (0,40)-(100,70). -/
def c7Rect : CanvasElement :=
  { id := "r"
    type := ElementType.rectangle
    x := 0
    y := 40
    endX := some 100
    endY := some 70
    points := none
    text := none
    color := "#000000"
    size := 3
    fontFamily := none
    fontSize := none }

/-- A wide flat circle element spanning (0,0)-(100,10): its hit radius
(max semi-axis, 50) is far larger than its bounding box's vertical extent. -/
def c7Circle : CanvasElement :=
  { id := "c"
    type := ElementType.circle
    x := 0
    y := 0
    endX := some 100
    endY := some 10
    points := none
    text := none
    color := "#FF0000"
    size := 3
    fontFamily := none
    fontSize := none }

/-- The commit validation as the specification words it: a path with at least
two points, or a shape whose bounding box exceeds one world unit in at least
one axis. -/
def commitValidSpec (cur : CanvasElement) : Prop :=
  ((cur.type = ElementType.pencil ∨ cur.type = ElementType.eraser) ∧
    ∃ ps, cur.points = some ps ∧ 2 ≤ ps.length) ∨
  (∃ ex ey, cur.endX = some ex ∧ cur.endY = some ey ∧
    (1 < |ex - cur.x| ∨ 1 < |ey - cur.y|))

theorem find?_append_false {α : Type} (p : α → Bool) (l1 l2 : List α)
    (h : ∀ a ∈ l1, p a = false) : (l1 ++ l2).find? p = l2.find? p := by
  induction l1 with
  | nil => rfl
  | cons a l ih =>
    have ha : p a = false := h a (List.mem_cons_self a l)
    rw [List.cons_append, List.find?_cons_of_neg _ (by simp [ha])]
    exact ih fun b hb => h b (List.mem_cons_of_mem a hb)

theorem saveToHistory_spec (s : WBState) :
    (saveToHistory s).history.getLast? = some s.elements ∧
    (saveToHistory s).redoStack = [] ∧
    (saveToHistory s).elements = s.elements ∧
    (saveToHistory s).saveCount = s.saveCount := by
  simp only [saveToHistory]
  set hist1 := if s.historyIndex < s.history.length then s.history.take s.historyIndex
    else s.history with hh
  by_cases hc : (hist1 ++ [s.elements]).length > MAX_HISTORY_STEPS
  · rw [if_pos hc]
    refine ⟨?_, rfl, rfl, rfl⟩
    cases h1 : hist1 with
    | nil => rw [h1] at hc; simp [MAX_HISTORY_STEPS] at hc
    | cons a l => simp [List.getLast?_concat]
  · rw [if_neg hc]
    exact ⟨List.getLast?_concat _, rfl, rfl, rfl⟩

theorem saveToHistory_no_evict (s : WBState)
    (h1 : s.historyIndex = s.history.length) (h3 : s.history.length + 1 ≤ 50) :
    saveToHistory s =
      { s with
          history := s.history ++ [s.elements]
          historyIndex := s.history.length + 1
          redoStack := [] } := by
  simp only [saveToHistory]
  have hnotlt : ¬ s.historyIndex < s.history.length := by omega
  rw [if_neg hnotlt]
  have hnot : ¬ (s.history ++ [s.elements]).length > MAX_HISTORY_STEPS := by
    simp [MAX_HISTORY_STEPS]; omega
  rw [if_neg hnot]
  simp

theorem applyMutation_inv (s : WBState) (m : Mutation)
    (h1 : s.historyIndex = s.history.length) (h3 : s.history.length + 1 ≤ 50) :
    (applyMutation s m).historyIndex = (applyMutation s m).history.length ∧
    (applyMutation s m).redoStack = [] ∧
    ∃ snap, (applyMutation s m).history = s.history ++ [snap] := by
  cases m with
  | pre f =>
    simp only [applyMutation]
    rw [saveToHistory_no_evict s h1 h3]
    exact ⟨by simp, rfl, ⟨s.elements, by simp⟩⟩
  | post f =>
    simp only [applyMutation]
    rw [saveToHistory_no_evict { s with elements := f s.elements } h1 h3]
    exact ⟨by simp, rfl, ⟨f s.elements, by simp⟩⟩

theorem applyMutations_inv (ms : List Mutation) : ∀ (s : WBState),
    s.historyIndex = s.history.length →
    s.history.length + ms.length ≤ 50 →
    (applyMutations s ms).historyIndex = (applyMutations s ms).history.length ∧
    ((applyMutations s ms).redoStack = [] ∨ (applyMutations s ms).redoStack = s.redoStack) ∧
    ∃ l, (applyMutations s ms).history = s.history ++ l ∧ l.length = ms.length := by
  induction ms with
  | nil =>
    intro s h1 _
    exact ⟨h1, Or.inr rfl, ⟨[], by simp [applyMutations]⟩⟩
  | cons m ms ih =>
    intro s h1 h3
    simp only [applyMutations]
    have hlen : s.history.length + 1 ≤ 50 := by
      simp [List.length_cons] at h3; omega
    obtain ⟨k1, k2, snap, k3⟩ := applyMutation_inv s m h1 hlen
    have h3n : (applyMutation s m).history.length + ms.length ≤ 50 := by
      rw [k3]; simp at h3 ⊢; omega
    obtain ⟨r1, r2, l, r3, r4⟩ := ih (applyMutation s m) k1 h3n
    refine ⟨r1, ?_, ⟨[snap] ++ l, ?_, by simp [r4]⟩⟩
    · rcases r2 with h | h
      · exact Or.inl h
      · rw [h, k2]; exact Or.inl rfl
    · rw [r3, k3, List.append_assoc]

theorem undoN_full : ∀ (j : ℕ) (s : WBState) (d : Document),
    1 ≤ j → s.historyIndex = j + 1 → j + 1 ≤ s.history.length →
    s.history.get? 0 = some d →
    (undoN s j).elements = d ∧
    ∃ rest, (undoN s j).redoStack = s.redoStack ++ s.elements :: rest ∧
      rest.length + 1 = j := by
  intro j
  induction j with
  | zero => intro s d h1; exact absurd h1 (by omega)
  | succ k ih =>
    intro s d _ hidx hlen hget
    obtain ⟨v, hv⟩ : ∃ v, s.history.get? k = some v := by
      cases hv : s.history.get? k with
      | none =>
        have := List.get?_eq_none.mp hv
        omega
      | some v => exact ⟨v, rfl⟩
    have hstep : handleUndo s =
        { s with
            elements := v
            historyIndex := k + 1
            redoStack := s.redoStack ++ [s.elements]
            saveCount := s.saveCount + 1 } := by
      simp only [handleUndo, hidx]
      rw [if_pos (by omega : k + 1 + 1 > 0)]
      simp only [Nat.add_sub_cancel, Nat.succ_ne_zero, if_false, hv]
    have hrec : undoN s (k + 1) = undoN (handleUndo s) k := rfl
    rw [hrec, hstep]
    rcases Nat.eq_zero_or_pos k with hk | hk
    · subst hk
      have hd : v = d := by
        rw [hv] at hget
        exact Option.some.inj hget
      subst hd
      exact ⟨by simp [undoN], ⟨[], by simp [undoN], rfl⟩⟩
    · obtain ⟨e1, rest, e2, e3⟩ :=
        ih { s with
              elements := v
              historyIndex := k + 1
              redoStack := s.redoStack ++ [s.elements]
              saveCount := s.saveCount + 1 }
          d hk rfl (by simp; omega) hget
      refine ⟨e1, ⟨v :: rest, ?_, by simp [e3]⟩⟩
      rw [e2]
      simp

theorem redoN_all : ∀ (n : ℕ) (s : WBState) (a : Document),
    s.redoStack.head? = some a → s.redoStack.length = n → 1 ≤ n →
    (redoN s n).elements = a := by
  intro n
  induction n with
  | zero => intro s a _ _ h; exact absurd h (by omega)
  | succ k ih =>
    intro s a hhead hlen _
    rcases List.eq_nil_or_concat s.redoStack with hnil | ⟨l2, b, hcat⟩
    · rw [hnil] at hhead; simp at hhead
    · have hstep : handleRedo s =
          { s with
              elements := b
              history := s.history ++ [b]
              historyIndex := (s.history ++ [b]).length
              redoStack := l2
              saveCount := s.saveCount + 1 } := by
        simp only [handleRedo, hcat, List.concat_eq_append, List.getLast?_concat,
          List.dropLast_concat]
      have hrec : redoN s (k + 1) = redoN (handleRedo s) k := rfl
      rw [hrec, hstep]
      rcases Nat.eq_zero_or_pos k with hk | hk
      · subst hk
        have hl2 : l2 = [] := by
          rw [hcat] at hlen
          simp at hlen
          exact hlen
        rw [hcat, hl2] at hhead
        simp at hhead
        subst hhead
        simp [redoN]
      · have hl2len : l2.length = k := by
          rw [hcat] at hlen; simp at hlen; omega
        have hl2head : l2.head? = some a := by
          cases l2 with
          | nil => rw [← hl2len] at hk; simp at hk
          | cons c cs =>
            rw [hcat] at hhead
            simpa using hhead
        exact ih _ a hl2head hl2len hk

/-- Claim C1.  The code does NOT satisfy the claimed no-op: at the freshly
initialized history (one initial snapshot, index 1, i.e. no committed mutation
to revert), handleUndo leaves the document unchanged but pushes a snapshot of
the current document onto the redo stack and drops the history index to 0;
only from index 0 onward is a further handleUndo a complete no-op. -/
theorem undo_fresh_state_mutates_redo :
    (handleUndo (initState [])).elements = [] ∧
    (handleUndo (initState [])).redoStack = [[]] ∧
    (handleUndo (initState [])).historyIndex = 0 ∧
    handleUndo (handleUndo (initState [])) = handleUndo (initState []) := by decide

/-- Claim C2 (amended).  For every starting document and every sequence of at
most 49 committed mutations applied from a freshly mounted engine, undoing
once per mutation restores the pre-sequence document, and then redoing once
per mutation restores the final document. -/
theorem undo_redo_inverse (d : Document) (ms : List Mutation) (hN : ms.length ≤ 49) :
    (undoN (applyMutations (initState d) ms) ms.length).elements = d ∧
    (redoN (undoN (applyMutations (initState d) ms) ms.length) ms.length).elements
      = (applyMutations (initState d) ms).elements := by
  obtain ⟨h1, h2, l, h3, h4⟩ :=
    applyMutations_inv ms (initState d) (by simp [initState]) (by simp [initState]; omega)
  rcases Nat.eq_zero_or_pos ms.length with h0 | hpos
  · have hnil : ms = [] := List.eq_nil_of_length_eq_zero h0
    subst hnil
    simp [undoN, redoN, applyMutations, initState]
  · have hgl : (applyMutations (initState d) ms).history.get? 0 = some d := by
      rw [h3]; simp [initState]
    have hidx : (applyMutations (initState d) ms).historyIndex = ms.length + 1 := by
      rw [h1, h3]; simp [initState, h4]
    have hlen2 : ms.length + 1 ≤ (applyMutations (initState d) ms).history.length := by
      rw [h3]; simp [initState, h4]
    obtain ⟨u1, rest, u2, u3⟩ :=
      undoN_full ms.length (applyMutations (initState d) ms) d hpos hidx hlen2 hgl
    refine ⟨u1, ?_⟩
    have hredo : (applyMutations (initState d) ms).redoStack = [] := by
      rcases h2 with h | h
      · exact h
      · rw [h]; simp [initState]
    apply redoN_all ms.length _ (applyMutations (initState d) ms).elements
    · rw [u2, hredo]; simp
    · rw [u2, hredo]; simp [u3]
    · exact hpos

/-- Claim C2 witness: one committed stroke from the empty document; one undo
restores the empty document and one redo restores the stroke. -/
theorem undo_redo_inverse_witness :
    (undoN (applyMutations (initState ([] : Document))
        [Mutation.pre fun es => es ++ [sampleStroke]])
      [Mutation.pre fun es => es ++ [sampleStroke]].length).elements = [] ∧
    (redoN (undoN (applyMutations (initState ([] : Document))
          [Mutation.pre fun es => es ++ [sampleStroke]])
        [Mutation.pre fun es => es ++ [sampleStroke]].length)
      [Mutation.pre fun es => es ++ [sampleStroke]].length).elements
      = (applyMutations (initState ([] : Document))
          [Mutation.pre fun es => es ++ [sampleStroke]]).elements :=
  undo_redo_inverse [] [Mutation.pre fun es => es ++ [sampleStroke]] (by decide)

set_option maxRecDepth 100000

/-- Claim C2 counterexample.  A sequence of exactly 50 committed mutations
from the empty document (a drag commit followed by 49 stroke commits) evicts
the oldest history entry, after which 50 undos can no longer reach the empty
pre-sequence document: the claim as stated, quantifying over every sequence
of committed mutations, is false. -/
theorem undo_fifty_overshoots :
    (Mutation.post (fun es => es ++ [sampleStroke]) ::
        List.replicate 49 (Mutation.pre fun es => es ++ [sampleStroke])).length = 50 ∧
    (undoN (applyMutations (initState [])
        (Mutation.post (fun es => es ++ [sampleStroke]) ::
          List.replicate 49 (Mutation.pre fun es => es ++ [sampleStroke]))) 50).elements
      = [sampleStroke] ∧
    [sampleStroke] ≠ ([] : Document) := by decide

/-- Claim C8.  Starting from the empty document, after 60 committed mutations
(each appending a stroke) the history holds exactly 50 snapshots, the oldest
surviving snapshot is the state after the 10 oldest commits (the 10 older
states were evicted first), and 50 undos land on that 10-element document,
not the initial empty one. -/
theorem history_bound_after_sixty :
    (applyMutations (initState [])
        (List.replicate 60 (Mutation.pre fun es => es ++ [sampleStroke]))).history.length
      = 50 ∧
    (applyMutations (initState [])
        (List.replicate 60 (Mutation.pre fun es => es ++ [sampleStroke]))).history.get? 0
      = some (List.replicate 10 sampleStroke) ∧
    (undoN (applyMutations (initState [])
        (List.replicate 60 (Mutation.pre fun es => es ++ [sampleStroke]))) 50).elements
      = List.replicate 10 sampleStroke ∧
    (undoN (applyMutations (initState [])
        (List.replicate 60 (Mutation.pre fun es => es ++ [sampleStroke]))) 50).elements
      ≠ [] := by decide

/-- Claim C3 counterexample.  clearCanvas is a document-mutating commit, yet
on a state with one element and a non-empty redo stack it pushes nothing onto
the history (still one entry, not two) and leaves the redo stack non-empty. -/
theorem clearCanvas_skips_history :
    (clearCanvas
        { elements := [sampleStroke]
          history := [[]]
          historyIndex := 1
          redoStack := [[sampleStroke]]
          saveCount := 0 }).elements = [] ∧
    (clearCanvas
        { elements := [sampleStroke]
          history := [[]]
          historyIndex := 1
          redoStack := [[sampleStroke]]
          saveCount := 0 }).history = [[]] ∧
    (clearCanvas
        { elements := [sampleStroke]
          history := [[]]
          historyIndex := 1
          redoStack := [[sampleStroke]]
          saveCount := 0 }).redoStack = [[sampleStroke]] := by decide

/-- Claim C3 (amended).  Stroke/shape commit, text commit and delete push a
snapshot of the pre-mutation document onto the undo history and leave the
redo stack empty; a drag commit also leaves the redo stack empty but pushes
the post-drag document (the drag already mutated the document during
pointer-move); clearing the canvas empties the document while pushing no
snapshot and leaving history and redo stack untouched. -/
theorem commit_snapshot_discipline (s : WBState) (cur : CanvasElement) (selId : String)
    (tis : TextInputState) (txt newId color : String) (size : ℚ)
    (f : Document → Document)
    (hcur : isValidElement cur = true) (htxt : jsTrim txt ≠ "") :
    ((handleEndDrawing s cur).history.getLast? = some s.elements ∧
      (handleEndDrawing s cur).redoStack = [] ∧
      (handleEndDrawing s cur).elements = s.elements ++ [cur]) ∧
    ((handleDelete s (some selId)).history.getLast? = some s.elements ∧
      (handleDelete s (some selId)).redoStack = []) ∧
    ((handleTextCommit s (some tis) txt newId color size).history.getLast?
        = some s.elements ∧
      (handleTextCommit s (some tis) txt newId color size).redoStack = []) ∧
    ((handleEndDrag { s with elements := f s.elements }).history.getLast?
        = some (f s.elements) ∧
      (handleEndDrag { s with elements := f s.elements }).redoStack = []) ∧
    ((clearCanvas s).elements = [] ∧ (clearCanvas s).history = s.history ∧
      (clearCanvas s).redoStack = s.redoStack) := by
  obtain ⟨g1, g2, g3, g4⟩ := saveToHistory_spec s
  obtain ⟨d1, d2, d3, d4⟩ := saveToHistory_spec { s with elements := f s.elements }
  refine ⟨?_, ?_, ?_, ⟨d1, d2⟩, ⟨rfl, rfl, rfl⟩⟩
  · simp only [handleEndDrawing, if_pos hcur]
    exact ⟨g1, g2, by rw [g3]⟩
  · simp only [handleDelete]
    exact ⟨g1, g2⟩
  · simp only [handleTextCommit]
    rw [if_neg htxt]
    exact ⟨g1, g2⟩

/-- Claim C3 witness: concrete instances of every commit path of the amended
claim, from a one-stroke document. -/
theorem commit_snapshot_discipline_witness :
    ((handleEndDrawing (initState [sampleStroke]) sampleStroke).history.getLast?
        = some (initState [sampleStroke]).elements ∧
      (handleEndDrawing (initState [sampleStroke]) sampleStroke).redoStack = [] ∧
      (handleEndDrawing (initState [sampleStroke]) sampleStroke).elements
        = (initState [sampleStroke]).elements ++ [sampleStroke]) ∧
    ((handleDelete (initState [sampleStroke]) (some "s1")).history.getLast?
        = some (initState [sampleStroke]).elements ∧
      (handleDelete (initState [sampleStroke]) (some "s1")).redoStack = []) ∧
    ((handleTextCommit (initState [sampleStroke]) (some ⟨0, 0⟩) "hi" "t1" "#000000"
          3).history.getLast? = some (initState [sampleStroke]).elements ∧
      (handleTextCommit (initState [sampleStroke]) (some ⟨0, 0⟩) "hi" "t1" "#000000"
          3).redoStack = []) ∧
    ((handleEndDrag { initState [sampleStroke] with
          elements := (fun es => es ++ [sampleStroke]) (initState [sampleStroke]).elements
        }).history.getLast?
        = some ((fun es => es ++ [sampleStroke]) (initState [sampleStroke]).elements) ∧
      (handleEndDrag { initState [sampleStroke] with
          elements := (fun es => es ++ [sampleStroke]) (initState [sampleStroke]).elements
        }).redoStack = []) ∧
    ((clearCanvas (initState [sampleStroke])).elements = [] ∧
      (clearCanvas (initState [sampleStroke])).history = (initState [sampleStroke]).history ∧
      (clearCanvas (initState [sampleStroke])).redoStack
        = (initState [sampleStroke]).redoStack) :=
  commit_snapshot_discipline (initState [sampleStroke]) sampleStroke "s1" ⟨0, 0⟩ "hi" "t1"
    "#000000" 3 (fun es => es ++ [sampleStroke]) (by decide) (by decide)

/-- Claim C4.  In the drawing state, a pointer-move appends the world point
for a pencil path (two points after one move) but silently drops it for an
eraser path, which therefore stays at one point and is rejected as invalid at
pointer-up: the eraser variant of the claim fails on the code. -/
theorem eraser_move_drops_point :
    (handleMoveDrawing (startPathElement "1" false ⟨0, 0⟩ "#000000" 3) ⟨10, 10⟩).points
      = some [⟨0, 0⟩, ⟨10, 10⟩] ∧
    (handleMoveDrawing (startPathElement "1" true ⟨0, 0⟩ "#000000" 3) ⟨10, 10⟩).points
      = some [⟨0, 0⟩] ∧
    isValidElement (handleMoveDrawing (startPathElement "1" true ⟨0, 0⟩ "#000000" 3)
      ⟨10, 10⟩) = false := by decide

/-- Claim C5.  A zoom wheel event keeps the world point under the cursor
fixed (screenToWorld at the event position agrees before and after) and the
new scale is clamped into the interval from 1/10 to 10. -/
theorem handleWheelZoom_anchor (t : Transform) (canvasX canvasY deltaY : ℚ) :
    screenToWorld canvasX canvasY (handleWheelZoom t canvasX canvasY deltaY).scale
        (handleWheelZoom t canvasX canvasY deltaY).offset
      = screenToWorld canvasX canvasY t.scale t.offset ∧
    1 / 10 ≤ (handleWheelZoom t canvasX canvasY deltaY).scale ∧
    (handleWheelZoom t canvasX canvasY deltaY).scale ≤ 10 := by
  have hscale : (handleWheelZoom t canvasX canvasY deltaY).scale
      = min (max (1 / 10) (t.scale + -deltaY * (1 / 1000))) 10 := rfl
  have h1 : (1 : ℚ) / 10 ≤ (handleWheelZoom t canvasX canvasY deltaY).scale := by
    rw [hscale]
    exact le_min (le_max_left _ _) (by norm_num)
  have h2 : (handleWheelZoom t canvasX canvasY deltaY).scale ≤ 10 := by
    rw [hscale]; exact min_le_right _ _
  have hne : min (max ((1 : ℚ) / 10) (t.scale + -deltaY * (1 / 1000))) 10 ≠ 0 := by
    have : (0 : ℚ) < min (max ((1 : ℚ) / 10) (t.scale + -deltaY * (1 / 1000))) 10 :=
      lt_of_lt_of_le (by norm_num) (hscale ▸ h1)
    exact ne_of_gt this
  refine ⟨?_, h1, h2⟩
  simp only [handleWheelZoom, screenToWorld, Point.mk.injEq]
  constructor <;>
  · rw [sub_sub_cancel, mul_div_assoc, div_self hne, mul_one]

/-- Claim C6.  For every transform with non-zero scale and every world point,
mapping to screen space and back is the identity (exactly, over the
rationals). -/
theorem screenToWorld_worldToScreen_roundtrip (t : Transform) (p : Point)
    (h : t.scale ≠ 0) :
    screenToWorld (worldToScreen p.x p.y t.scale t.offset).x
      (worldToScreen p.x p.y t.scale t.offset).y t.scale t.offset = p := by
  obtain ⟨px, py⟩ := p
  simp only [screenToWorld, worldToScreen, Point.mk.injEq]
  constructor <;> field_simp

/-- Claim C6 witness at scale 2, offset (3,4), world point (5,6). -/
theorem screenToWorld_worldToScreen_roundtrip_witness :
    (2 : ℚ) ≠ 0 ∧
    screenToWorld (worldToScreen 5 6 2 ⟨3, 4⟩).x (worldToScreen 5 6 2 ⟨3, 4⟩).y 2 ⟨3, 4⟩
      = (⟨5, 6⟩ : Point) :=
  ⟨by norm_num,
    screenToWorld_worldToScreen_roundtrip ⟨2, ⟨3, 4⟩⟩ ⟨5, 6⟩ (by norm_num)⟩

/-- Claim C7 (amended).  getElementAtPosition scans the elements in reverse
z-order and returns the first one passing the COMBINED test (bounding-box
pre-check and per-type test): any element above the hit one fails the
combined test, and when every element fails the combined test the result is
null. -/
theorem getElementAtPosition_zorder (wx wy th : ℚ) (xs ys : List CanvasElement)
    (e : CanvasElement)
    (he : elementHitTest wx wy th e = true)
    (hys : ∀ y ∈ ys, elementHitTest wx wy th y = false) :
    getElementAtPosition wx wy (xs ++ e :: ys) th = some e ∧
    ∀ zs : List CanvasElement, (∀ z ∈ zs, elementHitTest wx wy th z = false) →
      getElementAtPosition wx wy zs th = none := by
  constructor
  · unfold getElementAtPosition
    rw [List.reverse_append, List.reverse_cons, List.append_assoc,
      find?_append_false _ ys.reverse _ (fun a ha => hys a (List.mem_reverse.mp ha))]
    exact List.find?_cons_of_pos _ he
  · intro zs hzs
    unfold getElementAtPosition
    rw [List.find?_eq_none]
    intro x hx
    simp [hzs x (List.mem_reverse.mp hx)]

/-- Claim C7 witness: a rectangle hit at a covered point with nothing above
it. -/
theorem getElementAtPosition_zorder_witness :
    getElementAtPosition 50 55 ([] ++ c7Rect :: []) 5 = some c7Rect ∧
    ∀ zs : List CanvasElement, (∀ z ∈ zs, elementHitTest 50 55 5 z = false) →
      getElementAtPosition 50 55 zs 5 = none :=
  getElementAtPosition_zorder 50 55 5 [] [] c7Rect
    (by norm_num [elementHitTest, passesBoundingBox, detailedHit, c7Rect,
      getElementBounds, getElementBoundsFallback])
    (by simp)

/-- Claim C7 counterexample.  At world point (50,55) with threshold 5 both
the rectangle and the LATER (topmost) flat circle satisfy their per-type
tests, yet getElementAtPosition returns the earlier rectangle: the circle's
per-type ring test can fire outside its bounding box, so the coarse
bounding-box rejection skips it, contradicting the claim that the first
element whose per-type test matches (the topmost of the two) is returned. -/
theorem hitTest_skips_matching_topmost :
    detailedHit 50 55 5 c7Circle = true ∧
    detailedHit 50 55 5 c7Rect = true ∧
    getElementAtPosition 50 55 [c7Rect, c7Circle] 5 = some c7Rect ∧
    c7Rect ≠ c7Circle := by
  refine ⟨?_, ?_, ?_, by decide⟩
  · norm_num [detailedHit, c7Circle, sqrtAbsSubLe, getElementBounds,
      getElementBoundsFallback]
  · norm_num [detailedHit, c7Rect, getElementBounds, getElementBoundsFallback]
  · norm_num [getElementAtPosition, List.find?, elementHitTest, passesBoundingBox,
      detailedHit, c7Rect, c7Circle, getElementBounds, getElementBoundsFallback,
      sqrtAbsSubLe]

/-- Claim C9.  A pointer-down immediately followed by pointer-up with a shape
tool (start = end) commits nothing and leaves the whole engine state
untouched; more generally any invalid in-progress element is discarded
silently, and the source's validity test is exactly the claimed one: a
pencil/eraser path with at least two points, or a shape whose bounding box
exceeds one world unit in at least one axis. -/
theorem degenerate_shape_rejected (s : WBState) (newId color : String)
    (ty : ElementType) (worldPos : Point) (size : ℚ) (cur cur2 : CanvasElement)
    (hcur : isValidElement cur = false) :
    handleEndDrawing s (startShapeElement newId ty worldPos color size) = s ∧
    handleEndDrawing s cur = s ∧
    (isValidElement cur2 = true ↔ commitValidSpec cur2) := by
  refine ⟨?_, by simp [handleEndDrawing, hcur], ?_⟩
  · have hval : isValidElement (startShapeElement newId ty worldPos color size) = false := by
      simp [isValidElement, isPathWithTwoPoints, startShapeElement]
    simp [handleEndDrawing, hval]
  · constructor
    · intro hv
      by_cases hp : isPathWithTwoPoints cur2 = true
      · left
        unfold isPathWithTwoPoints at hp
        simp only [Bool.and_eq_true, Bool.or_eq_true, decide_eq_true_eq] at hp
        obtain ⟨hty, hps⟩ := hp
        cases hps2 : cur2.points with
        | none => rw [hps2] at hps; simp at hps
        | some ps =>
          rw [hps2] at hps
          simp only [decide_eq_true_eq] at hps
          exact ⟨hty, ps, rfl, by omega⟩
      · right
        rw [isValidElement, if_neg hp] at hv
        cases hex : cur2.endX with
        | none => rw [hex] at hv; simp at hv
        | some ex =>
          cases hey : cur2.endY with
          | none => rw [hex, hey] at hv; simp at hv
          | some ey =>
            rw [hex, hey] at hv
            simp only [Bool.or_eq_true, decide_eq_true_eq] at hv
            exact ⟨ex, ey, rfl, rfl, hv⟩
    · intro hv
      rcases hv with ⟨hty, ps, hps, hlen⟩ | ⟨ex, ey, hex, hey, hbig⟩
      · have hp : isPathWithTwoPoints cur2 = true := by
          unfold isPathWithTwoPoints
          rw [hps]
          simp only [Bool.and_eq_true, Bool.or_eq_true, decide_eq_true_eq]
          exact ⟨by tauto, by omega⟩
        simp [isValidElement, hp]
      · by_cases hp : isPathWithTwoPoints cur2 = true
        · simp [isValidElement, hp]
        · rw [isValidElement, if_neg hp, hex, hey]
          simp only [Bool.or_eq_true, decide_eq_true_eq]
          exact hbig

/-- Claim C9 witness: a click with the line tool at world point (3,3), and a
one-point pencil path as the invalid element. -/
theorem degenerate_shape_rejected_witness :
    handleEndDrawing (initState [])
        (startShapeElement "i1" ElementType.line ⟨3, 3⟩ "#000000" 3) = initState [] ∧
    handleEndDrawing (initState []) degenerateStroke = initState [] ∧
    (isValidElement sampleStroke = true ↔ commitValidSpec sampleStroke) :=
  degenerate_shape_rejected (initState []) "i1" "#000000" ElementType.line ⟨3, 3⟩ 3
    degenerateStroke sampleStroke (by decide)

/-- Claim C10.  Committing a text entry trims the entered string: a
whitespace-only entry changes nothing (no element, no history snapshot, no
persistence write), and a non-empty entry appends a text element storing the
trimmed string, after a pre-mutation history snapshot, and schedules exactly
one persistence write. -/
theorem handleTextCommit_trim_discipline (s : WBState) (tis : TextInputState)
    (txtE txtN newId color : String) (size : ℚ)
    (hE : jsTrim txtE = "") (hN : jsTrim txtN ≠ "") :
    handleTextCommit s (some tis) txtE newId color size = s ∧
    (handleTextCommit s (some tis) txtN newId color size).elements
      = s.elements ++
        [{ id := newId
           type := ElementType.text
           x := tis.worldX
           y := tis.worldY
           endX := none
           endY := none
           points := none
           text := some (jsTrim txtN)
           color := color
           size := size
           fontFamily := some "Arial"
           fontSize := some 16 }] ∧
    (handleTextCommit s (some tis) txtN newId color size).history.getLast?
      = some s.elements ∧
    (handleTextCommit s (some tis) txtN newId color size).redoStack = [] ∧
    (handleTextCommit s (some tis) txtN newId color size).saveCount = s.saveCount + 1 := by
  obtain ⟨g1, g2, g3, g4⟩ := saveToHistory_spec s
  refine ⟨by simp [handleTextCommit, hE], ?_, ?_, ?_, ?_⟩ <;>
    simp only [handleTextCommit, if_neg hN]
  · rw [g3]
  · exact g1
  · exact g2
  · rw [g4]

/-- Claim C10 witness: a whitespace-only entry and an entry with surrounding
whitespace, committed at world point (0,0) from a one-stroke document. -/
theorem handleTextCommit_trim_discipline_witness :
    handleTextCommit (initState [sampleStroke]) (some ⟨0, 0⟩) "   " "t2" "#000000" 3
      = initState [sampleStroke] ∧
    (handleTextCommit (initState [sampleStroke]) (some ⟨0, 0⟩) "  hi  " "t2" "#000000"
        3).elements
      = (initState [sampleStroke]).elements ++
        [{ id := "t2"
           type := ElementType.text
           x := (⟨0, 0⟩ : TextInputState).worldX
           y := (⟨0, 0⟩ : TextInputState).worldY
           endX := none
           endY := none
           points := none
           text := some (jsTrim "  hi  ")
           color := "#000000"
           size := 3
           fontFamily := some "Arial"
           fontSize := some 16 }] ∧
    (handleTextCommit (initState [sampleStroke]) (some ⟨0, 0⟩) "  hi  " "t2" "#000000"
        3).history.getLast? = some (initState [sampleStroke]).elements ∧
    (handleTextCommit (initState [sampleStroke]) (some ⟨0, 0⟩) "  hi  " "t2" "#000000"
        3).redoStack = [] ∧
    (handleTextCommit (initState [sampleStroke]) (some ⟨0, 0⟩) "  hi  " "t2" "#000000"
        3).saveCount = (initState [sampleStroke]).saveCount + 1 :=
  handleTextCommit_trim_discipline (initState [sampleStroke]) ⟨0, 0⟩ "   " "  hi  "
    "t2" "#000000" 3 (by decide) (by decide)

end Whiteboard
